import Mathlib

/-!
Verification of the Beta-Geometric customer-churn notebooks.

The development shallowly embeds the two notebooks' core functions:
FormatBGData (survival-table construction), NLogL (base negative
log-likelihood), NLogL_Alpha (extended likelihood with loyalty/novelty
parameter), ExtrapolateBG (base and extended forward projection) and the
fitting wrappers around the external simplex optimizer.  Table arithmetic
is exact (over ℚ); likelihood and projection values live in ℝ with the
Beta function defined from the real Gamma function, matching
scipy.special.beta on its positive domain.
-/

namespace Churn

/-- One row of the dataframe built by FormatBGData: the remaining count at
the start of the period, the count lost during the period, the period
index, and the 0/1 flag marking the final (right-censored) period. -/
structure BGRow where
  Remaining : ℚ
  Cust_Lost : ℚ
  Period : ℕ
  Final_Period : ℕ
deriving DecidableEq, Repr, Inhabited

/-- Embedding of FormatBGData: build one row per index of the raw list
(Remaining is the raw value, Cust_Lost the negated first difference with
the first difference filled with 0, Period the positional index, the
Final_Period flag set on the last row), then drop the Period-0 row. -/
def FormatBGData (RawRemaining : List ℚ) : List BGRow :=
  (List.range RawRemaining.length).filterMap fun i =>
    if i = 0 then none
    else some { Remaining := RawRemaining.getD i 0,
                Cust_Lost := RawRemaining.getD (i - 1) 0 - RawRemaining.getD i 0,
                Period := i,
                Final_Period := if i = RawRemaining.length - 1 then 1 else 0 }

/-- The row FormatBGData produces for period `i` of input `raw`. -/
def bgRow (raw : List ℚ) (i : ℕ) : BGRow :=
  { Remaining := raw.getD i 0,
    Cust_Lost := raw.getD (i - 1) 0 - raw.getD i 0,
    Period := i,
    Final_Period := if i = raw.length - 1 then 1 else 0 }

lemma filterMap_range'_pos (g : ℕ → BGRow) (s m : ℕ) (hs : 1 ≤ s) :
    (List.range' s m).filterMap
        (fun i => if i = 0 then none else some (g i)) =
      (List.range' s m).map g := by
  induction m generalizing s with
  | zero => simp
  | succ m ih =>
    have hs0 : s ≠ 0 := by omega
    rw [List.range'_succ, List.filterMap_cons, List.map_cons, if_neg hs0]
    exact congrArg (List.cons (g s)) (ih (s + 1) (by omega))

lemma filterMap_range_eq_map (g : ℕ → BGRow) (n : ℕ) :
    (List.range n).filterMap (fun i => if i = 0 then none else some (g i)) =
      (List.range' 1 (n - 1)).map g := by
  cases n with
  | zero => simp
  | succ m =>
    have hr : List.range (m + 1) = 0 :: List.range' 1 m := by
      rw [List.range_eq_range']
      rfl
    rw [hr, List.filterMap_cons, if_pos rfl, Nat.succ_sub_one]
    exact filterMap_range'_pos g 1 m le_rfl

/-- FormatBGData in closed form: one row per period 1 .. length-1. -/
lemma formatBGData_eq (raw : List ℚ) :
    FormatBGData raw = (List.range' 1 (raw.length - 1)).map (bgRow raw) :=
  filterMap_range_eq_map (bgRow raw) raw.length

/-- The Beta function as used by the notebooks (scipy.special.beta),
expressed through the real Gamma function. -/
noncomputable def Beta (a b : ℝ) : ℝ :=
  Real.Gamma a * Real.Gamma b / Real.Gamma (a + b)

/-- Embedding of the base-model NLogL (identical in both notebooks): for
each row, Cust_Lost times the log Beta-ratio for churning in that period,
plus, gated by the Final_Period flag, Remaining times the log Beta-ratio
for surviving past it; the row values are summed and negated. -/
noncomputable def NLogL (Gamma Delta : ℝ) (Data : List BGRow) : ℝ :=
  -(Data.map fun r =>
      (r.Cust_Lost : ℝ) *
          Real.log (Beta (Gamma + 1) (Delta + (r.Period : ℝ) - 1) / Beta Gamma Delta) +
        (r.Final_Period : ℝ) *
          ((r.Remaining : ℝ) *
            Real.log (Beta Gamma (Delta + (r.Period : ℝ)) / Beta Gamma Delta))).sum

/-- Row-wise recursion embedding NLogL_Alpha's two running cumulative
sums: c1 accumulates max(0, 1 + Alpha*(Period-1)) (DeltaUpd1's cumsum)
and c2 accumulates max(0, 1 + Alpha*Period) (DeltaUpd2's cumsum), each
row contributing its log-likelihood term with the updated accumulators. -/
noncomputable def NLogL_AlphaAux (Gamma Delta Alpha : ℝ) :
    List BGRow → ℝ → ℝ → ℝ
  | [], _, _ => 0
  | r :: rs, c1, c2 =>
    ((r.Cust_Lost : ℝ) *
        Real.log ((Beta Gamma (Delta + (c1 + max 0 (1 + Alpha * ((r.Period : ℝ) - 1)))) -
            Beta Gamma (Delta + (c2 + max 0 (1 + Alpha * (r.Period : ℝ))))) /
          Beta Gamma Delta) +
      (r.Final_Period : ℝ) * (r.Remaining : ℝ) *
        Real.log (Beta Gamma (Delta + (c2 + max 0 (1 + Alpha * (r.Period : ℝ)))) /
          Beta Gamma Delta)) +
      NLogL_AlphaAux Gamma Delta Alpha rs
        (c1 + max 0 (1 + Alpha * ((r.Period : ℝ) - 1)))
        (c2 + max 0 (1 + Alpha * (r.Period : ℝ)))

/-- Embedding of the extended-model NLogL_Alpha: negate the summed rows,
with both cumulative sums started at 0. -/
noncomputable def NLogL_Alpha (Gamma Delta Alpha : ℝ) (Data : List BGRow) : ℝ :=
  -NLogL_AlphaAux Gamma Delta Alpha Data 0 0

/-- Embedding of the base notebook's ExtrapolateBG Cust_Lost column: the
cumsum of the per-period churn Beta-ratios up to row t, scaled by the
initial population. -/
noncomputable def ExtrapolateBG_Cust_Lost (Initial_Pop Gamma Delta : ℝ) (t : ℕ) : ℝ :=
  (∑ s in Finset.Icc 1 t, Beta (Gamma + 1) (Delta + (s : ℝ) - 1) / Beta Gamma Delta) *
    Initial_Pop

/-- Embedding of the base notebook's ExtrapolateBG Remaining column:
initial population minus the cumulative Cust_Lost. -/
noncomputable def ExtrapolateBG_Remaining (Initial_Pop Gamma Delta : ℝ) (t : ℕ) : ℝ :=
  Initial_Pop - ExtrapolateBG_Cust_Lost Initial_Pop Gamma Delta t

/-- The cumsum of np.maximum(0, 1 + Alpha*time) at row t, time = 1..t,
as used by the extended notebook's ExtrapolateBG (and coinciding with the
cumulative exponent cumB of the spec). -/
noncomputable def cumClip (Alpha : ℝ) (t : ℕ) : ℝ :=
  ∑ i in Finset.Icc 1 t, max 0 (1 + Alpha * (i : ℝ))

/-- Embedding of the extended notebook's ExtrapolateBG (its only output
column): Remaining at row t is the initial population times the
Beta-ratio at the clipped cumulative exponent. -/
noncomputable def ExtrapolateBG_Alpha_Remaining
    (Initial_Pop Gamma Delta Alpha : ℝ) (t : ℕ) : ℝ :=
  Initial_Pop * (Beta Gamma (Delta + cumClip Alpha t) / Beta Gamma Delta)

/-- The spec's cumulative exponent cumA: the sum of max(0, 1 + alpha*i)
for i = 1 .. t-1. -/
noncomputable def cumA_spec (Alpha : ℝ) (t : ℕ) : ℝ :=
  ∑ i in Finset.Icc 1 (t - 1), max 0 (1 + Alpha * (i : ℝ))

/-- Per-period loss of the raw sequence, as a real number. -/
noncomputable def lostAt (raw : List ℚ) (t : ℕ) : ℝ :=
  ((raw.getD (t - 1) 0 - raw.getD t 0 : ℚ) : ℝ)

/-- The spec's base-model negative log-likelihood formula: a sum of the
per-period churn terms over periods 1..T plus a single censored term for
the final period T = length - 1, negated. -/
noncomputable def NLL_spec (Gamma Delta : ℝ) (raw : List ℚ) : ℝ :=
  -((∑ t in Finset.Icc 1 (raw.length - 1),
        lostAt raw t *
          Real.log (Beta (Gamma + 1) (Delta + (t : ℝ) - 1) / Beta Gamma Delta)) +
      ((raw.getD (raw.length - 1) 0 : ℚ) : ℝ) *
        Real.log (Beta Gamma (Delta + ((raw.length - 1 : ℕ) : ℝ)) / Beta Gamma Delta))

/-- The spec's extended-model negative log-likelihood formula, using the
spec's cumulative exponents cumA (periods 1..t-1) and cumB (periods
1..t, the same sum the code's DeltaUpd2 computes). -/
noncomputable def NLLAlpha_spec (Gamma Delta Alpha : ℝ) (raw : List ℚ) : ℝ :=
  -((∑ t in Finset.Icc 1 (raw.length - 1),
        lostAt raw t *
          Real.log ((Beta Gamma (Delta + cumA_spec Alpha t) -
              Beta Gamma (Delta + cumClip Alpha t)) / Beta Gamma Delta)) +
      ((raw.getD (raw.length - 1) 0 : ℚ) : ℝ) *
        Real.log (Beta Gamma (Delta + cumClip Alpha (raw.length - 1)) / Beta Gamma Delta))

lemma Beta_one_one : Beta 1 1 = 1 := by
  norm_num [Beta, Real.Gamma_one, Real.Gamma_two]

lemma Beta_one_two : Beta 1 2 = 1 / 2 := by
  norm_num [Beta, Real.Gamma_one, Real.Gamma_two, Nat.factorial]

lemma Beta_two_one : Beta 2 1 = 1 / 2 := by
  norm_num [Beta, Real.Gamma_one, Real.Gamma_two, Nat.factorial]

lemma Beta_one_three : Beta 1 3 = 1 / 3 := by
  norm_num [Beta, Real.Gamma_one, Nat.factorial]

lemma Beta_two_two : Beta 2 2 = 1 / 6 := by
  norm_num [Beta, Real.Gamma_two, Nat.factorial]

lemma Beta_pos {a b : ℝ} (ha : 0 < a) (hb : 0 < b) : 0 < Beta a b := by
  unfold Beta
  have h1 := Real.Gamma_pos_of_pos ha
  have h2 := Real.Gamma_pos_of_pos hb
  have h3 := Real.Gamma_pos_of_pos (add_pos ha hb)
  positivity

/-- The additive Beta identity B(a,b) = B(a+1,b) + B(a,b+1). -/
lemma Beta_add_one (a b : ℝ) (ha : 0 < a) (hb : 0 < b) :
    Beta a b = Beta (a + 1) b + Beta a (b + 1) := by
  unfold Beta
  have hab : (0 : ℝ) < a + b := add_pos ha hb
  have hga : Real.Gamma (a + 1) = a * Real.Gamma a := Real.Gamma_add_one ha.ne'
  have hgb : Real.Gamma (b + 1) = b * Real.Gamma b := Real.Gamma_add_one hb.ne'
  have hgab : Real.Gamma (a + b + 1) = (a + b) * Real.Gamma (a + b) :=
    Real.Gamma_add_one hab.ne'
  have e1 : a + 1 + b = a + b + 1 := by ring
  have e2 : a + (b + 1) = a + b + 1 := by ring
  rw [e1, e2, hga, hgb, hgab]
  have hne : Real.Gamma (a + b) ≠ 0 := (Real.Gamma_pos_of_pos hab).ne'
  field_simp
  ring

/-- Telescoping sum of the per-period churn Beta values. -/
lemma sum_Beta_telescope (Gamma Delta : ℝ) (hg : 0 < Gamma) (hd : 0 < Delta) (t : ℕ) :
    ∑ s in Finset.Icc 1 t, Beta (Gamma + 1) (Delta + (s : ℝ) - 1) =
      Beta Gamma Delta - Beta Gamma (Delta + (t : ℝ)) := by
  induction t with
  | zero => simp
  | succ t ih =>
    rw [Finset.sum_Icc_succ_top (by omega), ih]
    have hdt : (0 : ℝ) < Delta + (t : ℝ) := by positivity
    have hrec := Beta_add_one Gamma (Delta + (t : ℝ)) hg hdt
    have e1 : Delta + ((t : ℕ) + 1 : ℕ) - 1 = Delta + (t : ℝ) := by
      push_cast
      ring
    have e2 : Delta + ((t : ℕ) + 1 : ℕ) = Delta + (t : ℝ) + 1 := by
      push_cast
      ring
    rw [e1, e2]
    linarith [hrec]

/-- Increments of a function convex on the positive reals are monotone in
the base point. -/
lemma convexOn_increment_mono {g : ℝ → ℝ} (hg : ConvexOn ℝ (Set.Ioi 0) g)
    {x y c : ℝ} (hx : 0 < x) (hxy : x ≤ y) (hc : 0 < c) :
    g (x + c) - g x ≤ g (y + c) - g y := by
  have hy : 0 < y := lt_of_lt_of_le hx hxy
  have hxc : 0 < x + c := by linarith
  have hyc : 0 < y + c := by linarith
  have hxyc : x < y + c := by linarith
  have s1 : (g (x + c) - g x) / (x + c - x) ≤ (g (y + c) - g x) / (y + c - x) :=
    hg.secant_mono (Set.mem_Ioi.mpr hx) (Set.mem_Ioi.mpr hxc) (Set.mem_Ioi.mpr hyc)
      (by intro h; nlinarith [h]) (by intro h; nlinarith [h]) (by linarith)
  have s2 : (g x - g (y + c)) / (x - (y + c)) ≤ (g y - g (y + c)) / (y - (y + c)) :=
    hg.secant_mono (Set.mem_Ioi.mpr hyc) (Set.mem_Ioi.mpr hx) (Set.mem_Ioi.mpr hy)
      (by intro h; nlinarith [h]) (by intro h; nlinarith [h]) hxy
  have e1 : (g x - g (y + c)) / (x - (y + c)) = (g (y + c) - g x) / (y + c - x) := by
    rw [show g x - g (y + c) = -(g (y + c) - g x) by ring,
      show x - (y + c) = -(y + c - x) by ring, neg_div_neg_eq]
  have e2 : (g y - g (y + c)) / (y - (y + c)) = (g (y + c) - g y) / c := by
    rw [show g y - g (y + c) = -(g (y + c) - g y) by ring,
      show y - (y + c) = -c by ring, neg_div_neg_eq]
  rw [e1, e2] at s2
  rw [show x + c - x = c by ring] at s1
  have := s1.trans s2
  calc g (x + c) - g x = (g (x + c) - g x) / c * c := by
        field_simp
    _ ≤ (g (y + c) - g y) / c * c := by
        apply mul_le_mul_of_nonneg_right this hc.le
    _ = g (y + c) - g y := by
        field_simp

/-- The Beta function is antitone in its second argument on the positive
reals (with the first argument positive). -/
lemma Beta_anti {g x y : ℝ} (hg : 0 < g) (hx : 0 < x) (hxy : x ≤ y) :
    Beta g y ≤ Beta g x := by
  have hy : 0 < y := lt_of_lt_of_le hx hxy
  rcases eq_or_lt_of_le hxy with rfl | hlt
  · exact le_rfl
  have hinc :
      Real.log (Real.Gamma (x + g)) - Real.log (Real.Gamma x) ≤
        Real.log (Real.Gamma (y + g)) - Real.log (Real.Gamma y) := by
    have := convexOn_increment_mono Real.convexOn_log_Gamma hx hxy hg
    simpa [Function.comp] using this
  have hgx := Real.Gamma_pos_of_pos hx
  have hgy := Real.Gamma_pos_of_pos hy
  have hgg := Real.Gamma_pos_of_pos hg
  have hgxg := Real.Gamma_pos_of_pos (add_pos hx hg)
  have hgyg := Real.Gamma_pos_of_pos (add_pos hy hg)
  -- from the log inequality, Gamma y * Gamma (x+g) <= Gamma x * Gamma (y+g)
  have hlog :
      Real.log (Real.Gamma y * Real.Gamma (x + g)) ≤
        Real.log (Real.Gamma x * Real.Gamma (y + g)) := by
    rw [Real.log_mul hgy.ne' hgxg.ne', Real.log_mul hgx.ne' hgyg.ne']
    linarith [hinc]
  have hmul :
      Real.Gamma y * Real.Gamma (x + g) ≤ Real.Gamma x * Real.Gamma (y + g) :=
    (Real.log_le_log_iff (by positivity) (by positivity)).mp hlog
  unfold Beta
  rw [div_le_div_iff₀ (Real.Gamma_pos_of_pos (add_pos hg hy))
    (Real.Gamma_pos_of_pos (add_pos hg hx))]
  have ex : g + x = x + g := by ring
  have ey : g + y = y + g := by ring
  rw [ex, ey]
  calc Real.Gamma g * Real.Gamma y * Real.Gamma (x + g)
      = Real.Gamma g * (Real.Gamma y * Real.Gamma (x + g)) := by ring
    _ ≤ Real.Gamma g * (Real.Gamma x * Real.Gamma (y + g)) := by
        apply mul_le_mul_of_nonneg_left hmul hgg.le
    _ = Real.Gamma g * Real.Gamma x * Real.Gamma (y + g) := by ring

lemma formatBGData_21 : FormatBGData [2, 1] = [⟨1, 1, 1, 1⟩] := by
  simp [formatBGData_eq, bgRow, List.range']
  norm_num

lemma cumClip_nonneg (Alpha : ℝ) (t : ℕ) : 0 ≤ cumClip Alpha t :=
  Finset.sum_nonneg fun i _ => le_max_left 0 _

lemma cumClip_le_succ (Alpha : ℝ) (t : ℕ) : cumClip Alpha t ≤ cumClip Alpha (t + 1) := by
  unfold cumClip
  rw [Finset.sum_Icc_succ_top (by omega)]
  have := le_max_left (0 : ℝ) (1 + Alpha * ((t : ℝ) + 1))
  push_cast
  linarith

lemma cumClip_zero_alpha (t : ℕ) : cumClip 0 t = (t : ℝ) := by
  unfold cumClip
  have h : ∀ i ∈ Finset.Icc 1 t, max (0 : ℝ) (1 + 0 * (i : ℝ)) = 1 := by
    intro i _
    norm_num
  rw [Finset.sum_congr rfl h, Finset.sum_const, Nat.card_Icc]
  simp

/-- Closed form of the base projector's Remaining column, via the
telescoping Beta identity. -/
lemma extrapolateBG_remaining_closed (Initial_Pop Gamma Delta : ℝ)
    (hg : 0 < Gamma) (hd : 0 < Delta) (t : ℕ) :
    ExtrapolateBG_Remaining Initial_Pop Gamma Delta t =
      Initial_Pop * (Beta Gamma (Delta + (t : ℝ)) / Beta Gamma Delta) := by
  unfold ExtrapolateBG_Remaining ExtrapolateBG_Cust_Lost
  rw [← Finset.sum_div, sum_Beta_telescope Gamma Delta hg hd t]
  have hB := Beta_pos hg hd
  field_simp
  ring

lemma map_range'_sum (f : ℕ → ℝ) (s T : ℕ) :
    ((List.range' s T).map f).sum = ∑ t in Finset.Ico s (s + T), f t := by
  induction T generalizing s with
  | zero => simp
  | succ T ih =>
    rw [List.range'_succ, List.map_cons, List.sum_cons, ih (s + 1),
      Finset.sum_eq_sum_Ico_succ_bot (by omega : s < s + (T + 1))]
    have he : s + 1 + T = s + (T + 1) := by omega
    rw [he]

/-- The base likelihood on a formatted table, as a sum over periods. -/
lemma NLogL_formatted (Gamma Delta : ℝ) (raw : List ℚ) :
    NLogL Gamma Delta (FormatBGData raw) =
      -(∑ t in Finset.Icc 1 (raw.length - 1),
          (lostAt raw t *
              Real.log (Beta (Gamma + 1) (Delta + (t : ℝ) - 1) / Beta Gamma Delta) +
            (((if t = raw.length - 1 then 1 else 0 : ℕ) : ℝ)) *
              (((raw.getD t 0 : ℚ) : ℝ) *
                Real.log (Beta Gamma (Delta + (t : ℝ)) / Beta Gamma Delta)))) := by
  unfold NLogL
  rw [formatBGData_eq, List.map_map, map_range'_sum _ 1 (raw.length - 1),
    show 1 + (raw.length - 1) = (raw.length - 1) + 1 by omega, Nat.Ico_succ_right]
  congr 1

/-- C2: on every table built from a raw sequence of length at least 2,
the base negative log-likelihood computed row-wise by the code equals the
spec's formula: minus the sum over periods of lost times the churn
log-Beta-ratio, plus a single censored term for the final period. -/
theorem churn_C2 (Gamma Delta : ℝ) (raw : List ℚ) (hlen : 2 ≤ raw.length) :
    NLogL Gamma Delta (FormatBGData raw) = NLL_spec Gamma Delta raw := by
  rw [NLogL_formatted, NLL_spec]
  have hT : 1 ≤ raw.length - 1 := by omega
  rw [Finset.sum_add_distrib]
  congr 1
  have h1 :
      ∀ t ∈ Finset.Icc 1 (raw.length - 1),
        (((if t = raw.length - 1 then 1 else 0 : ℕ) : ℝ)) *
            (((raw.getD t 0 : ℚ) : ℝ) *
              Real.log (Beta Gamma (Delta + (t : ℝ)) / Beta Gamma Delta)) =
          (if t = raw.length - 1 then
            ((raw.getD t 0 : ℚ) : ℝ) *
              Real.log (Beta Gamma (Delta + (t : ℝ)) / Beta Gamma Delta)
          else 0) := by
    intro t _
    by_cases h : t = raw.length - 1 <;> simp [h]
  rw [Finset.sum_congr rfl h1, Finset.sum_ite_eq' (Finset.Icc 1 (raw.length - 1))]
  rw [if_pos (Finset.mem_Icc.mpr ⟨hT, le_rfl⟩)]

/-- Witness for C2 at the concrete notebook input. -/
theorem churn_C2_witness :
    2 ≤ ([1000, 800, 275, 250, 220] : List ℚ).length ∧
      NLogL 1 1 (FormatBGData [1000, 800, 275, 250, 220]) =
        NLL_spec 1 1 [1000, 800, 275, 250, 220] :=
  ⟨by norm_num, churn_C2 1 1 [1000, 800, 275, 250, 220] (by norm_num)⟩

/-- C4: for positive parameters the base projector's remaining count at
every period t in 1..H is the initial population times the survival
Beta-ratio B(gamma, delta + t) / B(gamma, delta), and the extended
projector at alpha = 0 agrees with it. -/
theorem churn_C4 (Gamma Delta Initial_Pop : ℝ) (hg : 0 < Gamma) (hd : 0 < Delta)
    (H t : ℕ) (h1 : 1 ≤ t) (hH : t ≤ H) :
    ExtrapolateBG_Remaining Initial_Pop Gamma Delta t =
        Initial_Pop * (Beta Gamma (Delta + (t : ℝ)) / Beta Gamma Delta) ∧
      ExtrapolateBG_Alpha_Remaining Initial_Pop Gamma Delta 0 t =
        Initial_Pop * (Beta Gamma (Delta + (t : ℝ)) / Beta Gamma Delta) := by
  constructor
  · exact extrapolateBG_remaining_closed Initial_Pop Gamma Delta hg hd t
  · unfold ExtrapolateBG_Alpha_Remaining
    rw [cumClip_zero_alpha]

/-- Witness for C4 at gamma = delta = 1, one period, horizon 3. -/
theorem churn_C4_witness :
    (0 : ℝ) < 1 ∧ (1 : ℕ) ≤ 1 ∧ (1 : ℕ) ≤ 3 ∧
      (ExtrapolateBG_Remaining 1000 1 1 1 =
          1000 * (Beta 1 (1 + ((1 : ℕ) : ℝ)) / Beta 1 1) ∧
        ExtrapolateBG_Alpha_Remaining 1000 1 1 0 1 =
          1000 * (Beta 1 (1 + ((1 : ℕ) : ℝ)) / Beta 1 1)) :=
  ⟨by norm_num, le_rfl, by norm_num,
    churn_C4 1 1 1000 (by norm_num) (by norm_num) 3 1 le_rfl (by norm_num)⟩

/-- C5: for positive shape parameters, any alpha, any nonnegative initial
population and any horizon, both projectors' remaining counts are
non-increasing from period t to t+1 inside the horizon and lie between 0
and the initial population. -/
theorem churn_C5 (Gamma Delta Alpha Initial_Pop : ℝ) (hg : 0 < Gamma) (hd : 0 < Delta)
    (hip : 0 ≤ Initial_Pop) (H t : ℕ) (h1 : 1 ≤ t) (hH : t ≤ H) :
    ((t < H →
        ExtrapolateBG_Alpha_Remaining Initial_Pop Gamma Delta Alpha (t + 1) ≤
          ExtrapolateBG_Alpha_Remaining Initial_Pop Gamma Delta Alpha t) ∧
      0 ≤ ExtrapolateBG_Alpha_Remaining Initial_Pop Gamma Delta Alpha t ∧
      ExtrapolateBG_Alpha_Remaining Initial_Pop Gamma Delta Alpha t ≤ Initial_Pop) ∧
    ((t < H →
        ExtrapolateBG_Remaining Initial_Pop Gamma Delta (t + 1) ≤
          ExtrapolateBG_Remaining Initial_Pop Gamma Delta t) ∧
      0 ≤ ExtrapolateBG_Remaining Initial_Pop Gamma Delta t ∧
      ExtrapolateBG_Remaining Initial_Pop Gamma Delta t ≤ Initial_Pop) := by
  have hBd := Beta_pos hg hd
  have hct := cumClip_nonneg Alpha t
  have hdt : (0 : ℝ) < Delta + cumClip Alpha t := by linarith
  have hBt := Beta_pos hg hdt
  have hle : Beta Gamma (Delta + cumClip Alpha t) ≤ Beta Gamma Delta :=
    Beta_anti hg hd (by linarith)
  have hdtn : (0 : ℝ) < Delta + (t : ℝ) := by positivity
  have hBtn := Beta_pos hg hdtn
  have hlen : Beta Gamma (Delta + (t : ℝ)) ≤ Beta Gamma Delta :=
    Beta_anti hg hd (by have h0 : (0 : ℝ) ≤ (t : ℝ) := Nat.cast_nonneg t; linarith)
  refine ⟨⟨fun _ => ?_, ?_, ?_⟩, fun _ => ?_, ?_, ?_⟩
  · have hstep := cumClip_le_succ Alpha t
    have hB1 :
        Beta Gamma (Delta + cumClip Alpha (t + 1)) ≤
          Beta Gamma (Delta + cumClip Alpha t) :=
      Beta_anti hg hdt (by linarith)
    unfold ExtrapolateBG_Alpha_Remaining
    apply mul_le_mul_of_nonneg_left _ hip
    exact div_le_div_of_nonneg_right hB1 hBd.le
  · exact mul_nonneg hip (div_nonneg hBt.le hBd.le)
  · have hrat : Beta Gamma (Delta + cumClip Alpha t) / Beta Gamma Delta ≤ 1 :=
      (div_le_one hBd).mpr hle
    calc ExtrapolateBG_Alpha_Remaining Initial_Pop Gamma Delta Alpha t
        ≤ Initial_Pop * 1 := mul_le_mul_of_nonneg_left hrat hip
      _ = Initial_Pop := mul_one Initial_Pop
  · rw [extrapolateBG_remaining_closed Initial_Pop Gamma Delta hg hd t,
      extrapolateBG_remaining_closed Initial_Pop Gamma Delta hg hd (t + 1)]
    have hB1 : Beta Gamma (Delta + ((t + 1 : ℕ) : ℝ)) ≤ Beta Gamma (Delta + (t : ℝ)) := by
      apply Beta_anti hg hdtn
      push_cast
      linarith
    apply mul_le_mul_of_nonneg_left _ hip
    exact div_le_div_of_nonneg_right hB1 hBd.le
  · rw [extrapolateBG_remaining_closed Initial_Pop Gamma Delta hg hd t]
    exact mul_nonneg hip (div_nonneg hBtn.le hBd.le)
  · rw [extrapolateBG_remaining_closed Initial_Pop Gamma Delta hg hd t]
    have hrat : Beta Gamma (Delta + (t : ℝ)) / Beta Gamma Delta ≤ 1 :=
      (div_le_one hBd).mpr hlen
    calc Initial_Pop * (Beta Gamma (Delta + (t : ℝ)) / Beta Gamma Delta)
        ≤ Initial_Pop * 1 := mul_le_mul_of_nonneg_left hrat hip
      _ = Initial_Pop := mul_one Initial_Pop

/-- Witness for C5 at gamma = delta = 1, alpha = -2, unit population,
period 1, horizon 2. -/
theorem churn_C5_witness :
    (0 : ℝ) < 1 ∧ (0 : ℝ) ≤ 1 ∧ (1 : ℕ) ≤ 1 ∧ (1 : ℕ) ≤ 2 ∧
      (0 ≤ ExtrapolateBG_Alpha_Remaining 1 1 1 (-2) 1 ∧
        ExtrapolateBG_Alpha_Remaining 1 1 1 (-2) 1 ≤ 1) :=
  ⟨by norm_num, by norm_num, le_rfl, by norm_num,
    (churn_C5 1 1 (-2) 1 (by norm_num) (by norm_num) (by norm_num) 2 1 le_rfl
        (by norm_num)).1.2.1,
    (churn_C5 1 1 (-2) 1 (by norm_num) (by norm_num) (by norm_num) 2 1 le_rfl
        (by norm_num)).1.2.2⟩

/-- C1 (refuted on the code): at alpha = 0 the extended likelihood does
not reduce to the base likelihood; on the table built from [2, 1] with
gamma = delta = 1 the extended per-period log argument degenerates to 0
(DeltaUpd1 = DeltaUpd2), so the two values differ. -/
theorem churn_C1_bug :
    NLogL_Alpha 1 1 0 (FormatBGData [2, 1]) ≠ NLogL 1 1 (FormatBGData [2, 1]) := by
  rw [formatBGData_21]
  simp only [NLogL_Alpha, NLogL_AlphaAux, NLogL, List.map_cons, List.map_nil,
    List.sum_cons, List.sum_nil]
  norm_num [max_def, Beta_one_one, Beta_one_two, Beta_two_one]

/-- C3 (refuted on the code): the code's extended likelihood does not
compute the spec's formula; on the table built from [2, 1] with
gamma = delta = 1, alpha = 1, the code's first Beta argument includes the
extra clipped term for i = 0 (an off-by-one), yielding log(1/6) where the
spec's cumA gives log(2/3). -/
theorem churn_C3_bug :
    NLogL_Alpha 1 1 1 (FormatBGData [2, 1]) ≠ NLLAlpha_spec 1 1 1 [2, 1] := by
  have hlog := Real.log_lt_log (by norm_num : (0 : ℝ) < 1 / 6)
    (by norm_num : (1 : ℝ) / 6 < 2 / 3)
  rw [formatBGData_21]
  simp only [NLogL_Alpha, NLogL_AlphaAux, NLLAlpha_spec, cumA_spec, cumClip, lostAt]
  norm_num [max_def, Beta_one_one, Beta_one_two, Beta_one_three]
  intro heq
  linarith

/-- C7 (refuted on the code): table construction never fails; a
one-element input yields an empty table rather than an error, and an
input with a negative value is accepted as-is. -/
theorem churn_C7_counterexample :
    FormatBGData [5] = [] ∧ FormatBGData [3, -1] = [⟨-1, 4, 1, 1⟩] := by
  constructor
  · simp [formatBGData_eq]
  · simp [formatBGData_eq, bgRow, List.range']
    norm_num

/-- C7 (amended): construction performs no validation and never fails;
for every raw input it returns exactly the rows of §3 for periods
1 .. length-1 (so inputs of fewer than 2 elements yield an empty table,
and negative or increasing values are accepted unchecked). -/
theorem churn_C7_amended (raw : List ℚ) :
    FormatBGData raw = (List.range' 1 (raw.length - 1)).map (bgRow raw) ∧
      (FormatBGData raw).length = raw.length - 1 := by
  refine ⟨formatBGData_eq raw, ?_⟩
  rw [formatBGData_eq raw, List.length_map, List.length_range']

/-- C8: the concrete scenario: [1000, 800, 275, 250, 220] produces the
4-period table with remaining [800, 275, 250, 220], lost
[200, 525, 25, 30], the final flag only on period 4, and the initial
population recovered from period 1 as remaining + lost = 1000. -/
theorem churn_C8 :
    FormatBGData [1000, 800, 275, 250, 220] =
        [⟨800, 200, 1, 0⟩, ⟨275, 525, 2, 0⟩, ⟨250, 25, 3, 0⟩, ⟨220, 30, 4, 1⟩] ∧
      (FormatBGData [1000, 800, 275, 250, 220]).headI.Remaining +
          (FormatBGData [1000, 800, 275, 250, 220]).headI.Cust_Lost = 1000 := by
  have h : FormatBGData [1000, 800, 275, 250, 220] =
      [⟨800, 200, 1, 0⟩, ⟨275, 525, 2, 0⟩, ⟨250, 25, 3, 0⟩, ⟨220, 30, 4, 1⟩] := by
    simp [formatBGData_eq, bgRow, List.range']
    norm_num
  refine ⟨h, ?_⟩
  rw [h]
  norm_num [List.headI]

/-- C9 (refuted on the code): the base projector's Cust_Lost column is
cumulative, not per-period: at gamma = delta = 1, unit population,
horizon 2, lost[2] = 2/3 while remaining[1] - remaining[2] = 1/6. -/
theorem churn_C9_counterexample :
    ExtrapolateBG_Cust_Lost 1 1 1 2 ≠
      ExtrapolateBG_Remaining 1 1 1 1 - ExtrapolateBG_Remaining 1 1 1 2 := by
  have h1 : ExtrapolateBG_Cust_Lost 1 1 1 1 = 1 / 2 := by
    unfold ExtrapolateBG_Cust_Lost
    rw [Finset.Icc_self, Finset.sum_singleton]
    norm_num [Beta_one_one, Beta_two_one]
  have h2 : ExtrapolateBG_Cust_Lost 1 1 1 2 = 2 / 3 := by
    unfold ExtrapolateBG_Cust_Lost
    rw [Finset.sum_Icc_succ_top (by omega : (1 : ℕ) ≤ 1 + 1), Finset.Icc_self,
      Finset.sum_singleton]
    norm_num [Beta_one_one, Beta_two_one, Beta_two_two]
  unfold ExtrapolateBG_Remaining
  rw [h1, h2]
  norm_num

/-- C9 (amended): the base projector's Cust_Lost is the cumulative loss
(initial population minus remaining); the per-period relation of the
claim holds for its increments, and at period 1 the cumulative and
per-period losses coincide. -/
theorem churn_C9_amended (Initial_Pop Gamma Delta : ℝ) (t : ℕ) (h1 : 1 ≤ t) :
    ExtrapolateBG_Cust_Lost Initial_Pop Gamma Delta t =
        Initial_Pop - ExtrapolateBG_Remaining Initial_Pop Gamma Delta t ∧
      ExtrapolateBG_Cust_Lost Initial_Pop Gamma Delta t -
          ExtrapolateBG_Cust_Lost Initial_Pop Gamma Delta (t - 1) =
        ExtrapolateBG_Remaining Initial_Pop Gamma Delta (t - 1) -
          ExtrapolateBG_Remaining Initial_Pop Gamma Delta t ∧
      ExtrapolateBG_Cust_Lost Initial_Pop Gamma Delta 1 =
        Initial_Pop - ExtrapolateBG_Remaining Initial_Pop Gamma Delta 1 := by
  unfold ExtrapolateBG_Remaining
  exact ⟨by ring, by ring, by ring⟩

/-- Witness for the amended C9 at concrete parameters. -/
theorem churn_C9_witness :
    (1 : ℕ) ≤ 2 ∧
      (ExtrapolateBG_Cust_Lost 5 1 1 2 = 5 - ExtrapolateBG_Remaining 5 1 1 2 ∧
        ExtrapolateBG_Cust_Lost 5 1 1 2 - ExtrapolateBG_Cust_Lost 5 1 1 (2 - 1) =
          ExtrapolateBG_Remaining 5 1 1 (2 - 1) - ExtrapolateBG_Remaining 5 1 1 2 ∧
        ExtrapolateBG_Cust_Lost 5 1 1 1 = 5 - ExtrapolateBG_Remaining 5 1 1 1) :=
  ⟨by norm_num, churn_C9_amended 5 1 1 2 (by norm_num)⟩

/-- The result object returned by scipy.optimize.minimize, reduced to the
attributes the notebooks touch: the parameter vector x, the success flag
and the final objective value (the attribute named fun in scipy). -/
structure OptimizeResult (n : ℕ) where
  x : Fin n → ℝ
  success : Bool
  fval : ℝ

/-- Embedding of the base notebook's FitBGModel: run the external
minimizer (abstracted as an argument) on NLogL from the fixed start
(1, 1) and return only the x attribute of the result. -/
noncomputable def FitBGModel
    (minimize : ((Fin 2 → ℝ) → ℝ) → (Fin 2 → ℝ) → OptimizeResult 2)
    (Data : List BGRow) : Fin 2 → ℝ :=
  (minimize (fun p => NLogL (p 0) (p 1) Data) ![1, 1]).x

/-- Embedding of the extended notebook's FitBGModel_Base: run the
minimizer on NLogL from (1, 1) and return the whole result object. -/
noncomputable def FitBGModel_Base
    (minimize : ((Fin 2 → ℝ) → ℝ) → (Fin 2 → ℝ) → OptimizeResult 2)
    (Data : List BGRow) : OptimizeResult 2 :=
  minimize (fun p => NLogL (p 0) (p 1) Data) ![1, 1]

/-- Embedding of the extended notebook's FitBGModel_Alpha: run the
minimizer on NLogL_Alpha from (1, 1, 0) and return the whole result. -/
noncomputable def FitBGModel_Alpha
    (minimize : ((Fin 3 → ℝ) → ℝ) → (Fin 3 → ℝ) → OptimizeResult 3)
    (Data : List BGRow) : OptimizeResult 3 :=
  minimize (fun p => NLogL_Alpha (p 0) (p 1) (p 2) Data) ![1, 1, 0]

/-- C10 (refuted on the code): the base notebook's FitBGModel discards
the convergence flag and objective: two optimizer runs that agree on x
but differ on success (and objective) give identical FitBGModel
outputs, so no convergence information is returned. -/
theorem churn_C10_counterexample :
    FitBGModel (fun _ _ => ⟨![2, 3], true, 5⟩) (FormatBGData [2, 1]) =
        FitBGModel (fun _ _ => ⟨![2, 3], false, 7⟩) (FormatBGData [2, 1]) ∧
      (true : Bool) ≠ false :=
  ⟨rfl, by simp⟩

/-- C10 (amended): every fit starts the simplex search at the fixed point
(1, 1) (base model) or (1, 1, 0) (extended model); the extended
notebook's fitters return the optimizer's full result (parameters,
success flag, objective), while the base notebook's FitBGModel returns
only the parameter vector. -/
theorem churn_C10_amended
    (m2 : ((Fin 2 → ℝ) → ℝ) → (Fin 2 → ℝ) → OptimizeResult 2)
    (m3 : ((Fin 3 → ℝ) → ℝ) → (Fin 3 → ℝ) → OptimizeResult 3)
    (Data : List BGRow) :
    FitBGModel m2 Data = (m2 (fun p => NLogL (p 0) (p 1) Data) ![1, 1]).x ∧
      FitBGModel_Base m2 Data = m2 (fun p => NLogL (p 0) (p 1) Data) ![1, 1] ∧
      FitBGModel_Alpha m3 Data =
        m3 (fun p => NLogL_Alpha (p 0) (p 1) (p 2) Data) ![1, 1, 0] :=
  ⟨rfl, rfl, rfl⟩

end Churn
